import Mathlib

/-!
The package configloader: encoding normalisation and staging.

A shallow embedding of `configloader.go` (package `configloader`):
`removeBOM`, `isUTF8`, `convertToUTF8`, the two normalisation lines of
`ConfigLoader.Load`, and `Load` itself over an explicit file-system state.

Go byte slices are lists of bytes.  A Go run-time panic (index or slice bound
out of range) is an explicit `none`, so that "never panics" is a statement
about the embedding and not an artefact of it.
-/

namespace Configloader

/-! ## Bytes and slices -/

/-- A Go `byte`. -/
abbrev Byte := Fin 256

/-- Go `data[i]`: `none` is the index-out-of-range panic. -/
def index (data : List Byte) (i : Nat) : Option Byte :=
  data.get? i

/-- Go `data[k:]`: `none` is the slice-bounds-out-of-range panic. -/
def sliceFrom (data : List Byte) (k : Nat) : Option (List Byte) :=
  if k ≤ data.length then some (data.drop k) else none

/-- Go `data[i] == c`, propagating the panic of the index expression. -/
def byteAt (data : List Byte) (i : Nat) (c : Byte) : Option Bool :=
  (index data i).map (fun b => b == c)

/-- Go `a && b`: `b` is evaluated (and may panic) only when `a` is true. -/
def andAlso (a b : Option Bool) : Option Bool :=
  match a with
  | none => none
  | some false => some false
  | some true => b

/-! ## removeBOM (configloader.go, lines 116-131) -/

/-- The function `removeBOM`: the length guard, then the three `switch` cases in
source order, then the fall-through `return data`. -/
def removeBOM (data : List Byte) : Option (List Byte) :=
  if data.length < 3 then some data
  else
    match andAlso (byteAt data 0 0xEF) (andAlso (byteAt data 1 0xBB) (byteAt data 2 0xBF)) with
    | none => none
    | some true => sliceFrom data 3
    | some false =>
      match andAlso (byteAt data 0 0xFE) (byteAt data 1 0xFF) with
      | none => none
      | some true => sliceFrom data 2
      | some false =>
        match andAlso (byteAt data 0 0xFF) (byteAt data 1 0xFE) with
        | none => none
        | some true => sliceFrom data 2
        | some false => some data

/-- The byte-order marks of the three `case` lines: UTF-8, UTF-16BE, UTF-16LE. -/
def boms : List (List Byte) :=
  [[0xEF, 0xBB, 0xBF], [0xFE, 0xFF], [0xFF, 0xFE]]

/-- Whether `data` begins with one of the three byte-order marks. -/
def startsWithBOM (data : List Byte) : Bool :=
  boms.any (fun b => b.isPrefixOf data)

/-! ## Errors -/

/-- The ways a call can fail to deliver its bytes: a run-time panic, or one of the
Go error values that reach `convertToUTF8`. -/
inductive Fault where
  /-- Run-time panic (index or slice bound out of range). -/
  | panic
  /-- The error `io.EOF`. -/
  | eof
  /-- The error `io.ErrUnexpectedEOF`. -/
  | unexpectedEOF
  /-- An error reported by the charset decoder while it is read. -/
  | decodeError (code : Nat)
  deriving DecidableEq

/-- Results of fallible calls can be compared, so that concrete runs evaluate. -/
instance instDecidableEqExcept {ε α : Type} [DecidableEq ε] [DecidableEq α] :
    DecidableEq (Except ε α)
  | .ok a, .ok b => if h : a = b then isTrue (by rw [h]) else isFalse (fun e => h (by cases e; rfl))
  | .error a, .error b =>
    if h : a = b then isTrue (by rw [h]) else isFalse (fun e => h (by cases e; rfl))
  | .ok _, .error _ => isFalse (fun e => by cases e)
  | .error _, .ok _ => isFalse (fun e => by cases e)

/-! ## The charset reader (external dependency `golang.org/x/net/html/charset`) -/

/-- The call `io.ReadFull(bytes.NewReader(input), buf)` with `len(buf) = cap`, by the
documented contract of the Go standard library: up to `cap` bytes are copied; the error
is nil when the buffer was filled, `io.EOF` when no byte was read, and
`io.ErrUnexpectedEOF` when some but not all bytes were read. -/
def readFull (input : List Byte) (cap : Nat) : List Byte × Option Fault :=
  let got := input.take cap
  if cap ≤ got.length then (got, none)
  else if 0 < got.length then (got, some Fault.unexpectedEOF)
  else (got, some Fault.eof)

/-- The reader handed back by `charset.NewReader`: the sniffing preview, the bytes the
wrapped reader still yields, and the content type passed by the caller. -/
structure CharsetReader where
  preview : List Byte
  content : List Byte
  contentType : String
  deriving DecidableEq

/-- The function `charset.NewReader(bytes.NewReader(input), contentType)` of the external
library: it reads a 1024-byte preview with `io.ReadFull`; `io.ErrUnexpectedEOF` (short
input) is absorbed, any other read error is returned, and otherwise the reader is built.
The choice of encoding (`DetermineEncoding`) and the decoding itself happen when the
reader is consumed and are the `Decoder` parameter below. -/
def charsetNewReader (input : List Byte) (contentType : String) : Except Fault CharsetReader :=
  match readFull input 1024 with
  | (preview, some Fault.unexpectedEOF) => .ok ⟨preview, preview, contentType⟩
  | (_, some e) => .error e
  | (preview, none) => .ok ⟨preview, preview ++ input.drop 1024, contentType⟩

/-- What `io.Copy(&buf, utf8Reader)` leaves in the buffer: the charset sniffing and
transcoding of the external library, kept abstract. -/
abbrev Decoder := CharsetReader → Except Fault (List Byte)

/-- The decoder of `encoding.Nop`: the bytes pass through unchanged.  It serves as a
concrete decoder wherever one has to be named. -/
def nopDecoder : Decoder := fun rd => .ok rd.content

/-! ## isUTF8 and convertToUTF8 (configloader.go, lines 92-114) -/

/-- The function `isUTF8`: whether `charset.NewReader(bytes.NewReader(input), "UTF-8")`
returned a nil error. -/
def isUTF8 (input : List Byte) : Bool :=
  match charsetNewReader input "UTF-8" with
  | .ok _ => true
  | .error _ => false

/-- The function `convertToUTF8`: the input itself when `isUTF8` holds, else the bytes
copied out of `charset.NewReader(bytes.NewReader(input), "")`. -/
def convertToUTF8 (dec : Decoder) (input : List Byte) : Except Fault (List Byte) :=
  if isUTF8 input then .ok input
  else
    match charsetNewReader input "" with
    | .error err => .error err
    | .ok utf8Reader =>
      match dec utf8Reader with
      | .error err => .error err
      | .ok buf => .ok buf

/-- Lines 56-57 of `Load`: `removeBOM` followed by `convertToUTF8`. -/
def normalize (dec : Decoder) (raw : List Byte) : Except Fault (List Byte) :=
  match removeBOM raw with
  | none => .error Fault.panic
  | some cleanData => convertToUTF8 dec cleanData

/-! ## Reference notions used to state the properties -/

/-- A UTF-8 continuation byte, `80..BF`. -/
def isCont (b : Byte) : Bool := 0x80 ≤ b.val && b.val ≤ 0xBF

/-- Well-formed UTF-8 (Unicode Standard, table 3-7; the same byte sequences that Go's
`utf8.Valid` accepts). -/
def validUTF8 : List Byte → Bool
  | [] => true
  | b0 :: rest =>
    if b0.val < 0x80 then validUTF8 rest
    else if 0xC2 ≤ b0.val && b0.val ≤ 0xDF then
      match rest with
      | b1 :: rest1 => isCont b1 && validUTF8 rest1
      | _ => false
    else if 0xE0 ≤ b0.val && b0.val ≤ 0xEF then
      match rest with
      | b1 :: b2 :: rest2 =>
        (if b0.val = 0xE0 then 0xA0 ≤ b1.val && b1.val ≤ 0xBF
         else if b0.val = 0xED then 0x80 ≤ b1.val && b1.val ≤ 0x9F
         else isCont b1) && isCont b2 && validUTF8 rest2
      | _ => false
    else if 0xF0 ≤ b0.val && b0.val ≤ 0xF4 then
      match rest with
      | b1 :: b2 :: b3 :: rest3 =>
        (if b0.val = 0xF0 then 0x90 ≤ b1.val && b1.val ≤ 0xBF
         else if b0.val = 0xF4 then 0x80 ≤ b1.val && b1.val ≤ 0x8F
         else isCont b1) && isCont b2 && isCont b3 && validUTF8 rest3
      | _ => false
    else false

/-- The low eight bits of a number, as a byte. -/
def toByte (n : Nat) : Byte := ⟨n % 256, Nat.mod_lt n (by decide)⟩

/-- UTF-8 encoding of one code point. -/
def utf8EncodeChar (c : Nat) : List Byte :=
  if c < 0x80 then [toByte c]
  else if c < 0x800 then [toByte (0xC0 + c / 64), toByte (0x80 + c % 64)]
  else if c < 0x10000 then
    [toByte (0xE0 + c / 4096), toByte (0x80 + c / 64 % 64), toByte (0x80 + c % 64)]
  else
    [toByte (0xF0 + c / 262144), toByte (0x80 + c / 4096 % 64),
     toByte (0x80 + c / 64 % 64), toByte (0x80 + c % 64)]

/-- UTF-16 code units of one code point (a surrogate pair above the BMP). -/
def utf16Units (c : Nat) : List Nat :=
  if c < 0x10000 then [c]
  else [0xD800 + (c - 0x10000) / 1024, 0xDC00 + (c - 0x10000) % 1024]

/-- UTF-8 encoding of a text. -/
def utf8Encode (t : String) : List Byte :=
  t.data.flatMap (fun ch => utf8EncodeChar ch.toNat)

/-- UTF-16 little-endian encoding of a text, without byte-order mark. -/
def utf16LE (t : String) : List Byte :=
  t.data.flatMap (fun ch => (utf16Units ch.toNat).flatMap (fun u => [toByte u, toByte (u / 256)]))

/-- UTF-16 big-endian encoding of a text, without byte-order mark. -/
def utf16BE (t : String) : List Byte :=
  t.data.flatMap (fun ch => (utf16Units ch.toNat).flatMap (fun u => [toByte (u / 256), toByte u]))

/-! ## The file system seen by Load -/

/-- A file-system state: the files that exist, each with its path and content. -/
abbrev FS := List (String × List Byte)

/-- Whether a file exists at `path`. -/
def FS.has (fs : FS) (path : String) : Bool :=
  fs.any (fun e => e.1 == path)

/-- The content of the file at `path`, if there is one. -/
def FS.read (fs : FS) (path : String) : Option (List Byte) :=
  (fs.find? (fun e => e.1 == path)).map (fun e => e.2)

/-- A new empty file at `path` (the caller has checked that none exists: `O_EXCL`). -/
def FS.create (fs : FS) (path : String) : FS :=
  (path, []) :: fs

/-- Bytes written at the end of the file at `path`. -/
def FS.write (fs : FS) (path : String) (data : List Byte) : FS :=
  fs.map (fun e => if e.1 == path then (e.1, e.2 ++ data) else e)

/-- The call `os.Remove(path)`: the file at `path` is unlinked. -/
def FS.remove (fs : FS) (path : String) : FS :=
  fs.filter (fun e => e.1 != path)

/-- What the outside world decides during one `Load`: the random strings drawn by
`os.CreateTemp`, whether opening the new file fails for a reason other than "already
exists", whether and after how many bytes `Write` fails, whether `Close` fails, the
system temporary directory, and which staged files the external parser accepts. -/
structure World where
  randoms : List String
  openFails : Bool
  writeFault : Option Nat
  closeFails : Bool
  osTempDir : String
  parses : String → List Byte → Bool

/-- The part of `*viper.Viper` that `Load` touches: the configured file and, once
`ReadInConfig` has succeeded, what it read. -/
structure Viper where
  configFile : String
  config : Option (List Byte)
  deriving DecidableEq

/-- The struct `ConfigLoader`. -/
structure ConfigLoader where
  vip : Viper
  tmpDir : String
  keepTemp : Bool
  deriving DecidableEq

/-- The type `Option` of the package: a function that configures a loader. -/
abbrev LoaderOption := ConfigLoader → ConfigLoader

/-- The function `WithTempDir`. -/
def WithTempDir (dir : String) : LoaderOption :=
  fun cl => ⟨cl.vip, dir, cl.keepTemp⟩

/-- The function `WithKeepTempFile`. -/
def WithKeepTempFile (keep : Bool) : LoaderOption :=
  fun cl => ⟨cl.vip, cl.tmpDir, keep⟩

/-- The function `New`: the defaults (`os.TempDir()`, `keepTemp: false`), then the
options applied in order. -/
def New (w : World) (options : List LoaderOption) : ConfigLoader :=
  options.foldl (fun loader opt => opt loader) ⟨⟨"", none⟩, w.osTempDir, false⟩

/-- Scan of `filepath.Ext` from the end of the path: stop with no extension at a path
separator, stop with the extension at the first dot met. -/
def extScan : List Char → List Char → List Char
  | [], _ => []
  | c :: before, acc =>
    if c = '/' then [] else if c = '.' then c :: acc else extScan before (c :: acc)

/-- The function `filepath.Ext` of the Go standard library. -/
def filepathExt (path : String) : String :=
  ⟨extScan path.data.reverse []⟩

/-- The split of an `os.CreateTemp` pattern at its last `*` (the whole pattern is the
leading part when there is none). -/
def splitPattern (pattern : List Char) : List Char × List Char :=
  match pattern.reverse.span (fun c => c != '*') with
  | (revTail, _ :: revHead) => (revHead.reverse, revTail.reverse)
  | (_, []) => (pattern, [])

/-- The retry loop of `os.CreateTemp`: the first drawn name at which no file exists is
opened; a name that exists is skipped. -/
def pickTemp (fs : FS) (openFails : Bool) (head tail : String) : List String → Option String
  | [] => none
  | r :: more =>
    if fs.has (head ++ r ++ tail) then pickTemp fs openFails head tail more
    else if openFails then none
    else some (head ++ r ++ tail)

/-- The function `os.CreateTemp(dir, pattern)` of the Go standard library, up to the name
of the file it creates: `none` is its error return.  At most 10000 names are tried. -/
def createTemp (w : World) (fs : FS) (dir pattern : String) : Option String :=
  let dir := if dir = "" then w.osTempDir else dir
  if pattern.data.contains '/' then none
  else
    let parts := splitPattern pattern.data
    let head := if dir.data.getLast? = some '/' then dir ++ ⟨parts.1⟩ else dir ++ "/" ++ ⟨parts.1⟩
    pickTemp fs w.openFails head ⟨parts.2⟩ (w.randoms.take 10000)

/-- The error returns of `Load`, one per `fmt.Errorf`, and the panic that would unwind it. -/
inductive LoadError where
  /-- The text "read file failed". -/
  | readFile
  /-- The text "encoding conversion failed", with the wrapped error. -/
  | encodingConversion (cause : Fault)
  /-- The text "create temp file failed". -/
  | createTempFile
  /-- The text "write temp file failed". -/
  | writeTempFile
  /-- The text "close temp file failed". -/
  | closeTempFile
  /-- The text "read config failed". -/
  | readConfig
  /-- A run-time panic inside `removeBOM`. -/
  | panicked
  deriving DecidableEq

/-- What a call of `Load` leaves behind: its error (nil is `none`), the loader, the files. -/
structure LoadResult where
  err : Option LoadError
  cl : ConfigLoader
  fs : FS
  deriving DecidableEq

/-- The method `viper.SetConfigFile`. -/
def Viper.SetConfigFile (v : Viper) (name : String) : Viper :=
  if name = "" then v else ⟨name, v.config⟩

/-- Lines 73-84 of `Load`, the part that runs with the `defer` already registered:
write, close, hand the file to the parser. -/
def stage (w : World) (cl : ConfigLoader) (fs : FS) (name : String) (utf8Data : List Byte) :
    LoadResult :=
  match w.writeFault with
  | some k => ⟨some LoadError.writeTempFile, cl, fs.write name (utf8Data.take k)⟩
  | none =>
    let fs2 := fs.write name utf8Data
    if w.closeFails then ⟨some LoadError.closeTempFile, cl, fs2⟩
    else
      let vip := cl.vip.SetConfigFile name
      match fs2.read vip.configFile with
      | none => ⟨some LoadError.readConfig, ⟨vip, cl.tmpDir, cl.keepTemp⟩, fs2⟩
      | some content =>
        if w.parses vip.configFile content then
          ⟨none, ⟨⟨vip.configFile, some content⟩, cl.tmpDir, cl.keepTemp⟩, fs2⟩
        else ⟨some LoadError.readConfig, ⟨vip, cl.tmpDir, cl.keepTemp⟩, fs2⟩

/-- The method `Load`.  The deferred `os.Remove(tmpFile.Name())`, registered when
`keepTemp` is false, runs when the rest of the body returns. -/
def Load (w : World) (dec : Decoder) (cl : ConfigLoader) (fs : FS) (filePath : String) :
    LoadResult :=
  match fs.read filePath with
  | none => ⟨some LoadError.readFile, cl, fs⟩
  | some rawData =>
    match normalize dec rawData with
    | .error Fault.panic => ⟨some LoadError.panicked, cl, fs⟩
    | .error err => ⟨some (LoadError.encodingConversion err), cl, fs⟩
    | .ok utf8Data =>
      let ext := filepathExt filePath
      match createTemp w fs cl.tmpDir ("config-*" ++ ext) with
      | none => ⟨some LoadError.createTempFile, cl, fs⟩
      | some name =>
        let out := stage w cl (fs.create name) name utf8Data
        if !cl.keepTemp then ⟨out.err, out.cl, out.fs.remove name⟩ else out

/-- The staged artifacts left by a call: the files that exist afterwards and did not
exist before. -/
def stagedArtifacts (before after : FS) : List String :=
  (after.map (fun e => e.1)).filter (fun p => !before.has p)

/-- The exits of `Load` that come after the temporary file was created: success (nil),
write failure, close failure, parse failure. -/
def stagedExits : List (Option LoadError) :=
  [none, some LoadError.writeTempFile, some LoadError.closeTempFile,
   some LoadError.readConfig]

/-! ## Concrete inputs -/

/-- The text of the end-to-end scenario. -/
def svcText : String := "name = \"svc\""

/-- A world in which no operation fails; the temporary names drawn are `123`, then `456`. -/
def calmWorld : World :=
  ⟨["123", "456"], false, none, false, "/tmp", fun _ _ => true⟩

/-- A world in which the write to the temporary file fails after three bytes. -/
def tornWorld : World :=
  ⟨["123", "456"], false, some 3, false, "/tmp", fun _ _ => true⟩

/-- A file system with one configuration file and one older staged file, whose name
collides with the first name drawn. -/
def sampleFS : FS :=
  [("app.toml", utf8Encode svcText), ("/tmp/config-123.toml", [])]

/-! ## removeBOM -/

theorem andAlso_some (x y : Bool) : andAlso (some x) (some y) = some (x && y) := by
  cases x <;> rfl

/-- On three bytes or more `removeBOM` is the `switch`, and no index or slice panics. -/
theorem removeBOM_cons3 (a b c : Byte) (rest : List Byte) :
    removeBOM (a :: b :: c :: rest) =
      some (if (a == 0xEF && (b == 0xBB && c == 0xBF)) = true then rest
            else if (a == 0xFE && b == 0xFF) = true then c :: rest
            else if (a == 0xFF && b == 0xFE) = true then c :: rest
            else a :: b :: c :: rest) := by
  have e0 : ∀ k : Byte, byteAt (a :: b :: c :: rest) 0 k = some (a == k) := fun _ => rfl
  have e1 : ∀ k : Byte, byteAt (a :: b :: c :: rest) 1 k = some (b == k) := fun _ => rfl
  have e2 : ∀ k : Byte, byteAt (a :: b :: c :: rest) 2 k = some (c == k) := fun _ => rfl
  have hl : ¬ (a :: b :: c :: rest).length < 3 := by simp
  unfold removeBOM
  rw [if_neg hl, e0, e1, e2, e0, e1, e0, e1, andAlso_some, andAlso_some, andAlso_some,
    andAlso_some]
  cases (a == 0xEF && (b == 0xBB && c == 0xBF)) <;> cases (a == 0xFE && b == 0xFF) <;>
    cases (a == 0xFF && b == 0xFE) <;> simp [sliceFrom]

theorem removeBOM_short (data : List Byte) (h : data.length < 3) :
    removeBOM data = some data := by
  simp [removeBOM, h]

/-- A list is shorter than three or has three leading elements. -/
theorem short_or_cons3 (data : List Byte) :
    data.length < 3 ∨ ∃ a b c rest, data = a :: b :: c :: rest := by
  match data with
  | [] => left; simp
  | [_] => left; simp
  | [_, _] => left; simp
  | a :: b :: c :: rest => right; exact ⟨a, b, c, rest, rfl⟩

theorem removeBOM_isSome (data : List Byte) : ∃ out, removeBOM data = some out := by
  rcases short_or_cons3 data with h | ⟨a, b, c, rest, rfl⟩
  · exact ⟨data, removeBOM_short data h⟩
  · exact ⟨_, removeBOM_cons3 a b c rest⟩

theorem removeBOM_of_noBOM (data : List Byte) (h : startsWithBOM data = false) :
    removeBOM data = some data := by
  rcases short_or_cons3 data with hs | ⟨a, b, c, rest, rfl⟩
  · exact removeBOM_short data hs
  · rw [removeBOM_cons3]
    simp only [startsWithBOM, boms, List.any_cons, List.any_nil, List.isPrefixOf,
      Bool.and_true, Bool.or_false, Bool.or_eq_false_iff] at h
    obtain ⟨h1, h2, h3⟩ := h
    have g1 : (a == 0xEF && (b == 0xBB && c == 0xBF)) = false := by
      rw [← h1]; simp [Bool.beq_comm]
    have g2 : (a == 0xFE && b == 0xFF) = false := by
      rw [← h2]; simp [Bool.beq_comm]
    have g3 : (a == 0xFF && b == 0xFE) = false := by
      rw [← h3]; simp [Bool.beq_comm]
    simp [g1, g2, g3]

theorem startsWithBOM_iff (data : List Byte) :
    startsWithBOM data = true ↔
      [0xEF, 0xBB, 0xBF] <+: data ∨ [0xFE, 0xFF] <+: data ∨ [0xFF, 0xFE] <+: data := by
  simp [startsWithBOM, boms]

/-! ## Claims about removeBOM -/

/-- C1, as stated, fails: the two-byte mark `FE FF` followed by the empty payload is
returned unmodified by the length guard, not stripped to the empty payload. -/
theorem removeBOM_bare_utf16_bom_kept :
    removeBOM ([0xFE, 0xFF] ++ []) = some [0xFE, 0xFF] ∧
      removeBOM ([0xFE, 0xFF] ++ []) ≠ some [] := by
  decide

/-- C1, amended: for each of the three byte-order marks and every payload such that mark
and payload together have at least three bytes (any payload after `EF BB BF`, any
non-empty payload after `FE FF` or `FF FE`), `removeBOM (bom ++ payload)` returns exactly
`payload`. -/
theorem removeBOM_strips_bom (bom payload : List Byte) (hb : bom ∈ boms)
    (hlen : 3 ≤ (bom ++ payload).length) : removeBOM (bom ++ payload) = some payload := by
  simp only [boms, List.mem_cons, List.mem_singleton, List.not_mem_nil, or_false] at hb
  rcases hb with rfl | rfl | rfl
  · exact (removeBOM_cons3 0xEF 0xBB 0xBF payload).trans (by simp)
  · cases payload with
    | nil => simp at hlen
    | cons c rest => exact (removeBOM_cons3 0xFE 0xFF c rest).trans (by simp)
  · cases payload with
    | nil => simp at hlen
    | cons c rest => exact (removeBOM_cons3 0xFF 0xFE c rest).trans (by simp)

/-- C1, amended, at the mark `FF FE` followed by one byte. -/
theorem removeBOM_strips_bom_witness :
    removeBOM ([0xFF, 0xFE] ++ [0x6E]) = some [0x6E] :=
  removeBOM_strips_bom [0xFF, 0xFE] [0x6E] (by decide) (by decide)

/-- C5: a payload of any length that starts with none of `EF BB BF`, `FE FF`, `FF FE`
is returned by `removeBOM` unchanged. -/
theorem removeBOM_passthrough (payload : List Byte)
    (h8 : ¬ [0xEF, 0xBB, 0xBF] <+: payload) (hBE : ¬ [0xFE, 0xFF] <+: payload)
    (hLE : ¬ [0xFF, 0xFE] <+: payload) : removeBOM payload = some payload := by
  apply removeBOM_of_noBOM
  cases hs : startsWithBOM payload with
  | false => rfl
  | true =>
    rcases (startsWithBOM_iff payload).mp hs with h | h | h
    · exact absurd h h8
    · exact absurd h hBE
    · exact absurd h hLE

/-- C5 at a two-byte payload that is only the beginning of a UTF-8 mark. -/
theorem removeBOM_passthrough_witness :
    removeBOM [0xEF, 0xBB] = some [0xEF, 0xBB] :=
  removeBOM_passthrough [0xEF, 0xBB] (by decide) (by decide) (by decide)

/-- C6: `removeBOM` returns a slice for every input (no index or slice bound is ever out
of range), and an input shorter than three bytes is returned unmodified whatever its
bytes. -/
theorem removeBOM_total (data : List Byte) :
    (∃ out, removeBOM data = some out) ∧ (data.length < 3 → removeBOM data = some data) :=
  ⟨removeBOM_isSome data, removeBOM_short data⟩

/-- C6 at the two bytes `FF FE`. -/
theorem removeBOM_total_witness : removeBOM [0xFF, 0xFE] = some [0xFF, 0xFE] :=
  (removeBOM_total [0xFF, 0xFE]).2 (by decide)

/-! ## isUTF8, convertToUTF8, normalize -/

/-- The charset reader is built for every non-empty input, whatever the content type. -/
theorem charsetNewReader_cons (b : Byte) (rest : List Byte) (contentType : String) :
    ∃ rd, charsetNewReader (b :: rest) contentType = .ok rd := by
  unfold charsetNewReader readFull
  by_cases h : 1024 ≤ ((b :: rest).take 1024).length
  · simp only [h, if_true]
    exact ⟨_, rfl⟩
  · have hpos : 0 < ((b :: rest).take 1024).length := by simp
    simp only [h, if_false, hpos, if_true]
    exact ⟨_, rfl⟩

/-- The charset reader fails with `io.EOF` on the empty input. -/
theorem charsetNewReader_nil (contentType : String) :
    charsetNewReader [] contentType = .error Fault.eof := by
  rfl

theorem isUTF8_cons (b : Byte) (rest : List Byte) : isUTF8 (b :: rest) = true := by
  obtain ⟨rd, h⟩ := charsetNewReader_cons b rest "UTF-8"
  simp [isUTF8, h]

theorem isUTF8_nil : isUTF8 [] = false := by
  rfl

theorem convertToUTF8_cons (dec : Decoder) (b : Byte) (rest : List Byte) :
    convertToUTF8 dec (b :: rest) = .ok (b :: rest) := by
  simp [convertToUTF8, isUTF8_cons]

theorem convertToUTF8_nil (dec : Decoder) : convertToUTF8 dec [] = .error Fault.eof := by
  simp [convertToUTF8, isUTF8_nil, charsetNewReader_nil]

theorem convertToUTF8_eq (dec : Decoder) (input : List Byte) :
    convertToUTF8 dec input = if input.isEmpty then .error Fault.eof else .ok input := by
  cases input with
  | nil => simpa using convertToUTF8_nil dec
  | cons b rest => simpa using convertToUTF8_cons dec b rest

theorem normalize_of_removeBOM (dec : Decoder) (raw clean : List Byte)
    (h : removeBOM raw = some clean) :
    normalize dec raw = if clean.isEmpty then .error Fault.eof else .ok clean := by
  simp [normalize, h, convertToUTF8_eq]

/-- C10: `isUTF8` is true exactly on the non-empty inputs, so `convertToUTF8` returns
every non-empty input unchanged whatever its content, fails with `io.EOF` on the empty
input, and never returns bytes produced by the decoder. -/
theorem convertToUTF8_never_transcodes (dec : Decoder) (input : List Byte) :
    isUTF8 input = !input.isEmpty ∧
      convertToUTF8 dec input = (if input.isEmpty then .error Fault.eof else .ok input) := by
  refine ⟨?_, convertToUTF8_eq dec input⟩
  cases input with
  | nil => exact isUTF8_nil
  | cons b rest => simpa using isUTF8_cons b rest

/-- C7 fails on the code: the single byte `FF` is not well-formed UTF-8, yet `isUTF8`
accepts it and `convertToUTF8` returns it unchanged as if it were UTF-8. -/
theorem isUTF8_accepts_malformed :
    validUTF8 [0xFF] = false ∧ isUTF8 [0xFF] = true ∧
      ∀ dec : Decoder, convertToUTF8 dec [0xFF] = .ok [0xFF] :=
  ⟨by decide, by decide, fun dec => convertToUTF8_cons dec 0xFF []⟩

/-- C2 fails on the code at the empty sequence: it is well-formed UTF-8 without a
byte-order mark, and normalisation returns the error `io.EOF` instead of the empty
sequence. -/
theorem normalize_empty_is_error :
    validUTF8 [] = true ∧ startsWithBOM [] = false ∧
      ∀ dec : Decoder, normalize dec [] = .error Fault.eof :=
  ⟨by decide, by decide, fun dec => by
    simpa using normalize_of_removeBOM dec [] [] (removeBOM_short [] (by decide))⟩

/-- C3, as stated, fails: a file that opens with the UTF-8 mark twice is normalised
without error to bytes that still begin with a byte-order mark. -/
theorem normalize_keeps_second_bom :
    normalize nopDecoder [0xEF, 0xBB, 0xBF, 0xEF, 0xBB, 0xBF] = .ok [0xEF, 0xBB, 0xBF] ∧
      validUTF8 [0xEF, 0xBB, 0xBF] = true ∧ startsWithBOM [0xEF, 0xBB, 0xBF] = true := by
  decide

/-- C3, amended: when what `removeBOM` leaves of the raw input is well-formed UTF-8 and
does not itself begin with a byte-order mark, then whenever normalisation returns without
error the returned bytes are that remainder, hence well-formed UTF-8 without a leading
byte-order mark. -/
theorem normalize_output_wellformed (dec : Decoder) (raw clean out : List Byte)
    (hclean : removeBOM raw = some clean) (hvalid : validUTF8 clean = true)
    (hbom : startsWithBOM clean = false) (hok : normalize dec raw = .ok out) :
    out = clean ∧ validUTF8 out = true ∧ startsWithBOM out = false := by
  rw [normalize_of_removeBOM dec raw clean hclean] at hok
  cases he : clean.isEmpty with
  | true => simp [he] at hok
  | false =>
    simp only [he, Bool.false_eq_true, if_false, Except.ok.injEq] at hok
    subst hok
    exact ⟨rfl, hvalid, hbom⟩

/-- C3, amended, at a UTF-8 mark followed by the bytes of `a=1`. -/
theorem normalize_output_wellformed_witness :
    normalize nopDecoder [0xEF, 0xBB, 0xBF, 0x61, 0x3D, 0x31] = .ok [0x61, 0x3D, 0x31] ∧
      validUTF8 [0x61, 0x3D, 0x31] = true ∧ startsWithBOM [0x61, 0x3D, 0x31] = false :=
  ⟨by decide,
    (normalize_output_wellformed nopDecoder [0xEF, 0xBB, 0xBF, 0x61, 0x3D, 0x31]
      [0x61, 0x3D, 0x31] [0x61, 0x3D, 0x31] (by decide) (by decide) (by decide)
      (by decide)).2⟩

/-- C4 fails on the code: for the text of the end-to-end scenario, the UTF-16 mark is
stripped and the UTF-16 code units are returned as they are, in both byte orders; they
are not the UTF-8 encoding of the text.  The stripped code units are themselves
well-formed UTF-8, so nothing after `removeBOM` can tell them from UTF-8 text. -/
theorem normalize_utf16_not_transcoded :
    (∀ dec : Decoder,
      normalize dec ([0xFF, 0xFE] ++ utf16LE svcText) = .ok (utf16LE svcText) ∧
      normalize dec ([0xFE, 0xFF] ++ utf16BE svcText) = .ok (utf16BE svcText)) ∧
    utf16LE svcText ≠ utf8Encode svcText ∧ utf16BE svcText ≠ utf8Encode svcText ∧
    validUTF8 (utf16LE svcText) = true ∧ validUTF8 (utf16BE svcText) = true := by
  refine ⟨fun dec => ⟨?_, ?_⟩, by decide, by decide, by decide, by decide⟩
  · rw [normalize_of_removeBOM dec _ (utf16LE svcText) (by decide)]
    rfl
  · rw [normalize_of_removeBOM dec _ (utf16BE svcText) (by decide)]
    rfl

/-- C9: for an input that is well-formed UTF-8 without a byte-order mark, normalising
the result of a normalisation gives the result of the first normalisation. -/
theorem normalize_idempotent (dec : Decoder) (x : List Byte) (_hvalid : validUTF8 x = true)
    (hbom : startsWithBOM x = false) :
    (normalize dec x).bind (normalize dec) = normalize dec x := by
  have h := normalize_of_removeBOM dec x x (removeBOM_of_noBOM x hbom)
  cases he : x.isEmpty with
  | true =>
    rw [h]
    simp [he, Except.bind]
  | false =>
    have hx : normalize dec x = .ok x := by simpa [he] using h
    rw [hx]
    simp [Except.bind, hx]

/-- C9 at the bytes of `a=1`. -/
theorem normalize_idempotent_witness :
    (normalize nopDecoder [0x61, 0x3D, 0x31]).bind (normalize nopDecoder) =
      normalize nopDecoder [0x61, 0x3D, 0x31] :=
  normalize_idempotent nopDecoder [0x61, 0x3D, 0x31] (by decide) (by decide)

/-! ## Load and the staged file -/

theorem pickTemp_fresh (fs : FS) (openFails : Bool) (head tail : String) (rs : List String)
    (name : String) (h : pickTemp fs openFails head tail rs = some name) :
    fs.has name = false := by
  induction rs with
  | nil => simp [pickTemp] at h
  | cons r more ih =>
    unfold pickTemp at h
    cases hex : fs.has (head ++ r ++ tail) with
    | true => rw [hex] at h; exact ih h
    | false =>
      rw [hex] at h
      cases openFails with
      | true => simp at h
      | false =>
        simp only [Bool.false_eq_true, if_false, Option.some.injEq] at h
        rw [← h]; exact hex

/-- The file that `os.CreateTemp` creates did not exist before. -/
theorem createTemp_fresh (w : World) (fs : FS) (dir pattern name : String)
    (h : createTemp w fs dir pattern = some name) : fs.has name = false := by
  unfold createTemp at h
  simp only at h
  split at h
  · cases h
  · exact pickTemp_fresh _ _ _ _ _ _ h

theorem write_of_fresh (fs : FS) (name : String) (data : List Byte)
    (h : fs.has name = false) : fs.write name data = fs := by
  induction fs with
  | nil => rfl
  | cons e rest ih =>
    simp only [FS.has, List.any_cons, Bool.or_eq_false_iff] at h
    simp only [FS.write, List.map_cons, h.1, Bool.false_eq_true, if_false]
    exact congrArg _ (ih h.2)

theorem remove_of_fresh (fs : FS) (name : String) (h : fs.has name = false) :
    fs.remove name = fs := by
  induction fs with
  | nil => rfl
  | cons e rest ih =>
    simp only [FS.has, List.any_cons, Bool.or_eq_false_iff] at h
    have hne : (e.1 != name) = true := by simp [bne, h.1]
    simp only [FS.remove, List.filter_cons, hne, if_true]
    exact congrArg _ (ih h.2)

theorem write_create (fs : FS) (name : String) (data : List Byte)
    (h : fs.has name = false) : (fs.create name).write name data = (name, data) :: fs := by
  have hfs := write_of_fresh fs name data h
  unfold FS.write at hfs
  unfold FS.create FS.write
  rw [List.map_cons, hfs]
  simp

theorem remove_cons_self (fs : FS) (name : String) (data : List Byte)
    (h : fs.has name = false) : FS.remove ((name, data) :: fs) name = fs := by
  have hfs := remove_of_fresh fs name h
  unfold FS.remove at hfs
  unfold FS.remove
  rw [List.filter_cons, hfs]
  simp

/-- Whatever its exit, the staged part of `Load` leaves the new file, with some content,
in front of the files that were there. -/
theorem stage_fs (w : World) (cl : ConfigLoader) (fs : FS) (name : String)
    (utf8Data : List Byte) (h : fs.has name = false) :
    ∃ content, (stage w cl (fs.create name) name utf8Data).fs = (name, content) :: fs := by
  unfold stage
  cases hw : w.writeFault with
  | some k => exact ⟨utf8Data.take k, write_create fs name _ h⟩
  | none =>
    refine ⟨utf8Data, ?_⟩
    simp only
    split
    · exact write_create fs name _ h
    · split
      · exact write_create fs name _ h
      · split <;> exact write_create fs name _ h

theorem stagedArtifacts_self (fs : FS) : stagedArtifacts fs fs = [] := by
  simp only [stagedArtifacts, List.filter_eq_nil_iff, List.mem_map]
  rintro p ⟨e, he, rfl⟩
  have hhas : fs.has e.1 = true := by
    simp only [FS.has, List.any_eq_true]
    exact ⟨e, he, by simp⟩
  simp [hhas]

theorem stagedArtifacts_cons (fs : FS) (name : String) (content : List Byte)
    (h : fs.has name = false) : stagedArtifacts fs ((name, content) :: fs) = [name] := by
  have hs := stagedArtifacts_self fs
  unfold stagedArtifacts at hs
  unfold stagedArtifacts
  rw [List.map_cons, List.filter_cons, hs]
  simp [h]

theorem stage_err (w : World) (cl : ConfigLoader) (fs : FS) (name : String)
    (utf8Data : List Byte) : (stage w cl fs name utf8Data).err ∈ stagedExits := by
  unfold stage
  cases hw : w.writeFault with
  | some k => simp [stagedExits]
  | none =>
    simp only
    split
    · simp [stagedExits]
    · split
      · simp [stagedExits]
      · split <;> simp [stagedExits]

/-- The two ways `Load` can end: before a temporary file exists, with the files
untouched, or after `os.CreateTemp` created `name`, with that file kept or removed
according to `keepTemp`. -/
theorem Load_cases (w : World) (dec : Decoder) (cl : ConfigLoader) (fs : FS)
    (filePath : String) :
    ((Load w dec cl fs filePath).fs = fs ∧ (Load w dec cl fs filePath).err ∉ stagedExits) ∨
    ∃ name content,
      createTemp w fs cl.tmpDir ("config-*" ++ filepathExt filePath) = some name ∧
      (Load w dec cl fs filePath).err ∈ stagedExits ∧
      (Load w dec cl fs filePath).fs = if cl.keepTemp then (name, content) :: fs else fs := by
  unfold Load
  cases hr : fs.read filePath with
  | none => left; simp [stagedExits]
  | some rawData =>
    simp only
    cases hn : normalize dec rawData with
    | error e =>
      left
      cases e <;> simp [stagedExits]
    | ok utf8Data =>
      simp only
      cases hc : createTemp w fs cl.tmpDir ("config-*" ++ filepathExt filePath) with
      | none => left; simp [stagedExits]
      | some name =>
        right
        have hfresh := createTemp_fresh w fs _ _ name hc
        obtain ⟨content, hfs⟩ := stage_fs w cl fs name utf8Data hfresh
        have herr := stage_err w cl (fs.create name) name utf8Data
        refine ⟨name, content, rfl, ?_, ?_⟩
        · cases cl.keepTemp <;> simpa using herr
        · cases hk : cl.keepTemp with
          | true => simpa using hfs
          | false => simp [hfs, remove_cons_self fs name content hfresh]

/-! ## The claim about Load -/

/-- C8: with `keepTemp = false`, whatever the exit path of `Load` (success, write
failure, close failure, parse failure, or an earlier error), the files afterwards are
exactly the files before: no staged artifact remains and the temporary file that was
created no longer exists.  With `keepTemp = true`, after a load that returned by success,
write failure, close failure or parse failure, exactly one staged artifact remains, the
temporary file that was created. -/
theorem Load_staged_artifacts (w : World) (dec : Decoder) (cl : ConfigLoader) (fs : FS)
    (filePath : String) :
    (cl.keepTemp = false →
      (Load w dec cl fs filePath).fs = fs ∧
      stagedArtifacts fs (Load w dec cl fs filePath).fs = [] ∧
      ∀ name, createTemp w fs cl.tmpDir ("config-*" ++ filepathExt filePath) = some name →
        (Load w dec cl fs filePath).fs.has name = false) ∧
    (cl.keepTemp = true → (Load w dec cl fs filePath).err ∈ stagedExits →
      ∃ name, createTemp w fs cl.tmpDir ("config-*" ++ filepathExt filePath) = some name ∧
        (Load w dec cl fs filePath).fs.has name = true ∧
        stagedArtifacts fs (Load w dec cl fs filePath).fs = [name] ∧
        (stagedArtifacts fs (Load w dec cl fs filePath).fs).length = 1) := by
  constructor
  · intro hk
    have hfs : (Load w dec cl fs filePath).fs = fs := by
      rcases Load_cases w dec cl fs filePath with ⟨h, _⟩ | ⟨name, content, _, _, h⟩
      · exact h
      · simpa [hk] using h
    refine ⟨hfs, ?_, ?_⟩
    · rw [hfs]; exact stagedArtifacts_self fs
    · intro name hc
      rw [hfs]; exact createTemp_fresh w fs _ _ name hc
  · intro hk hexit
    rcases Load_cases w dec cl fs filePath with ⟨_, h⟩ | ⟨name, content, hc, _, h⟩
    · exact absurd hexit h
    · have hfresh := createTemp_fresh w fs _ _ name hc
      rw [hk] at h
      simp only [if_true] at h
      refine ⟨name, hc, ?_, ?_, ?_⟩
      · rw [h]; simp [FS.has]
      · rw [h]; exact stagedArtifacts_cons fs name content hfresh
      · rw [h, stagedArtifacts_cons fs name content hfresh]; rfl

/-- C8 on a sample file system: the default loader leaves the files as they were, also
when the write fails half-way; a loader that keeps its temporary file leaves exactly one
new file. -/
theorem Load_staged_artifacts_witness :
    (Load calmWorld nopDecoder (New calmWorld []) sampleFS "app.toml").fs = sampleFS ∧
    (Load tornWorld nopDecoder (New tornWorld []) sampleFS "app.toml").fs = sampleFS ∧
    ∃ name,
      createTemp calmWorld sampleFS (New calmWorld [WithKeepTempFile true]).tmpDir
        ("config-*" ++ filepathExt "app.toml") = some name ∧
      (Load calmWorld nopDecoder (New calmWorld [WithKeepTempFile true]) sampleFS
        "app.toml").fs.has name = true ∧
      stagedArtifacts sampleFS (Load calmWorld nopDecoder
        (New calmWorld [WithKeepTempFile true]) sampleFS "app.toml").fs = [name] ∧
      (stagedArtifacts sampleFS (Load calmWorld nopDecoder
        (New calmWorld [WithKeepTempFile true]) sampleFS "app.toml").fs).length = 1 :=
  ⟨((Load_staged_artifacts calmWorld nopDecoder (New calmWorld []) sampleFS "app.toml").1
      rfl).1,
    ((Load_staged_artifacts tornWorld nopDecoder (New tornWorld []) sampleFS "app.toml").1
      rfl).1,
    (Load_staged_artifacts calmWorld nopDecoder (New calmWorld [WithKeepTempFile true])
      sampleFS "app.toml").2 rfl (by decide)⟩

end Configloader
